import Mathlib

/-!
Verification of the pymedphys excerpt: the single-MLC-leaf-pair MU-density
accumulator (whose contract is pinned down by `tests/test_mudensity/test_single_mlc.py`
and §4.1/§8 of the spec) and the Mosaiq QCL counter dashboard helpers
(`lib/pymedphys/_experimental/streamlit/apps/mosaiq_qcl_counter.py`).

The accumulator implementation (`pymedphys.level1.mudensity.calc_single_control_point`)
is not part of this excerpt; following the spec (§9: the two test scenarios of §8 are
the ground truth), it is modelled here over ℚ and checked against the in-repository
test assertions.
-/

namespace MuDensity

/-- Modelled from the spec: `calc_single_control_point` is absent from the excerpt,
so the open-aperture geometry is modelled per §4.1/§8.2.  `clampQ L R y` clamps the
coordinate `y` into the aperture interval `[L, R]`; when the aperture is empty
(`R < L`) it collapses to the constant `L`.  The length of the overlap between a
grid cell `[a, b]` and the aperture is then `clampQ L R b - clampQ L R a`. -/
def clampQ (L R y : ℚ) : ℚ := max L (min y R)

/-- Modelled from the spec (§8.2, §9): fraction of the grid cell of width `w`
centred at `x` that lies inside the open aperture `(L, R)` — the overlap length
divided by the cell width, so boundary cells take values proportional to their
fractional coverage. -/
def coverage (L R x w : ℚ) : ℚ :=
  (clampQ L R (x + w / 2) - clampQ L R (x - w / 2)) / w

/-- Modelled from the spec (§4.1 step 2): linear interpolation from `a` to `b`
across `n` uniformly spaced samples inclusive of both endpoints; `i` is the
sample index (`0 ≤ i < n`). -/
def interp (a b : ℚ) (n i : ℕ) : ℚ :=
  if n ≤ 1 then a else a + (b - a) * i / ((n : ℚ) - 1)

/-- Modelled from the spec (§4.1 steps 3–4, calibrated by §8.2): MU density at the
grid cell centred at `x`: the mean over the `n` time samples of the fractional
coverage of the cell by the open aperture. -/
def densAt (l0 l1 r0 r1 res : ℚ) (n : ℕ) (x : ℚ) : ℚ :=
  (∑ i in Finset.range n, coverage (interp l0 l1 n i) (interp r0 r1 n i) x res) / n

/-- Modelled from the spec (§4.1 step 1, margin calibrated by §9's scenario 2):
cell centres spaced `res` apart, from `⌊min edge / res⌋ * res` up to
`⌈max edge / res⌉ * res`, covering the full range swept by both leaf edges. -/
def gridCoords (l0 l1 r0 r1 res : ℚ) : List ℚ :=
  let lo : ℤ := ⌊min (min l0 l1) (min r0 r1) / res⌋
  let hi : ℤ := ⌈max (max l0 l1) (max r0 r1) / res⌉
  (List.range (hi - lo + 1).toNat).map (fun k : ℕ => ((lo : ℚ) + (k : ℚ)) * res)

/-- Modelled from the spec (§4.1): the accumulator
`compute(left_positions, right_positions, grid_resolution, time_steps)`.
Fails (returns `none`) exactly when `time_steps < 1`, `grid_resolution ≤ 0`, or
either position sequence does not have exactly two elements; otherwise returns
the grid of cell centres and the per-cell MU density. -/
def compute (left right : List ℚ) (res : ℚ) (timeSteps : ℤ) :
    Option (List ℚ × List ℚ) :=
  match left, right with
  | [l0, l1], [r0, r1] =>
    if 1 ≤ timeSteps ∧ 0 < res then
      let grid := gridCoords l0 l1 r0 r1 res
      some (grid, grid.map (densAt l0 l1 r0 r1 res timeSteps.toNat))
    else none
  | _, _ => none

/-- The spec's §3 invariant stated literally, for refinement comparison with the
accumulator: a cell is counted open at a sample iff its centre lies strictly
between the left and right leaf edges, and the density is
(count of open samples) / time_steps. -/
def specCenterDensAt (l0 l1 r0 r1 : ℚ) (n : ℕ) (x : ℚ) : ℚ :=
  (((Finset.range n).filter
      (fun i => interp l0 l1 n i < x ∧ x < interp r0 r1 n i)).card : ℚ) / n

/-- The accumulator as it would behave under the spec's §3 centre-indicator
invariant (refinement comparison only; same grid and validation as `compute`). -/
def computeCenterIndicator (left right : List ℚ) (res : ℚ) (timeSteps : ℤ) :
    Option (List ℚ × List ℚ) :=
  match left, right with
  | [l0, l1], [r0, r1] =>
    if 1 ≤ timeSteps ∧ 0 < res then
      let grid := gridCoords l0 l1 r0 r1 res
      some (grid, grid.map (specCenterDensAt l0 l1 r0 r1 timeSteps.toNat))
    else none
  | _, _ => none

/-- The nearest-coordinate assignment used by `test_minimal_variance_with_resolution`:
the centre of the coarse grid (integer-spaced centres `lo, lo+1, …, hi`) nearest to
the fine-grid coordinate `x`, with ties going to the smaller coordinate exactly as
`np.argmin` returns the first minimiser. -/
def nearestCoarse (lo hi : ℤ) (x : ℚ) : ℤ := max lo (min hi ⌈x - 1 / 2⌉)

/-- The fine-to-coarse local average of `test_minimal_variance_with_resolution`:
the mean of the fine-grid (resolution 1/100) MU densities over the fine cells
assigned to the coarse cell centred at `c` (coarse resolution 1, centres
`lo, …, hi`) by nearest-coordinate assignment. -/
def fineMeanAt (l0 l1 r0 r1 : ℚ) (n : ℕ) (lo hi c : ℤ) : ℚ :=
  let fg := gridCoords l0 l1 r0 r1 (1 / 100)
  let assigned := (Finset.range fg.length).filter
      (fun k => nearestCoarse lo hi (fg.getD k 0) = c)
  (∑ k in assigned, densAt l0 l1 r0 r1 (1 / 100) n (fg.getD k 0)) / assigned.card

end MuDensity

namespace QclCounter

/-- Per-site Mosaiq block as read from the TOML configuration
(`site_config["mosaiq"]`): each sub-key may be absent. -/
structure MosaiqSiteConfig where
  physics_qcl_location : Option String
  hostname : Option String
  port : Option Nat
  mosaiqAlias : Option String

/-- A site record from the configuration source (`config["site"]`): a name and an
optional `mosaiq` block. -/
structure SiteConfig where
  name : String
  mosaiq : Option MosaiqSiteConfig

/-- The validated per-site entry that `main` stores in `site_config_map`. -/
structure SiteEntry where
  location : String
  hostname : String
  port : Nat
  siteAlias : String
deriving DecidableEq

/-- Whether a site record carries a complete `mosaiq` block (all four required
sub-keys present). -/
def hasCompleteMosaiq (s : SiteConfig) : Bool :=
  match s.mosaiq with
  | some m => m.physics_qcl_location.isSome && m.hostname.isSome &&
      m.port.isSome && m.mosaiqAlias.isSome
  | none => false

/-- One iteration of the site-configuration loop of `main`
(`mosaiq_qcl_counter.py`, lines 40–55): extract the `mosaiq` block and its four
required sub-keys; any missing key raises `KeyError`, caught by `continue`
(modelled as `none`). -/
def siteEntry (s : SiteConfig) : Option (String × SiteEntry) :=
  match s.mosaiq with
  | none => none
  | some m =>
    match m.physics_qcl_location, m.hostname, m.port, m.mosaiqAlias with
    | some loc, some hn, some p, some al => some (s.name, ⟨loc, hn, p, al⟩)
    | _, _, _, _ => none

/-- Embeds the site-configuration loop of `main`
(`mosaiq_qcl_counter.py`, lines 38–55): each site whose `mosaiq` block or any of
the sub-keys `physics_qcl_location`, `hostname`, `port`, `alias` is missing is
silently skipped. -/
def buildSiteConfigMap (sites : List SiteConfig) : List (String × SiteEntry) :=
  sites.filterMap siteEntry

/-- The user-visible warning issued by `main` when no site has a complete
configuration. -/
def emptyConfigWarning : String :=
  "The appropriate configuration items for this tool have not been provided."

/-- Embeds lines 57–62 of `main`: if the candidate map is empty the app emits
`st.warning(...)` and halts via `st.stop()` (modelled as `Except.error` with the
warning text — a controlled halt, not a crash); otherwise it proceeds with the
map. -/
def configStage (sites : List SiteConfig) :
    Except String (List (String × SiteEntry)) :=
  let m := buildSiteConfigMap sites
  if m.isEmpty then .error emptyConfigWarning else .ok m

/-- A joined record as selected by the SQL query in `_get_qcls_by_date`
(`Chklist ⋈ Staff ⋈ QCLTask ⋈ Ident ⋈ Patient` on the query's equi-join keys):
the six selected columns together with the responsible staff last name used in
the `WHERE` clause.  Datetimes are modelled as integers (only their linear order
matters here). -/
structure QclRecord where
  patient_id : String
  last_name : String
  first_name : String
  due : ℤ
  act : ℤ
  task : String
  staff_last_name : String
deriving DecidableEq

/-- A row delivered to the tabular sink: exactly the six columns
`patient_id, last_name, first_name, due, actual_completed_time, task`
(the DataFrame of `_get_qcls_by_date`). -/
structure QclRow where
  patient_id : String
  last_name : String
  first_name : String
  due : ℤ
  actual_completed_time : ℤ
  task : String
deriving DecidableEq

/-- Column projection performed by the SQL `SELECT` list and the DataFrame
constructor of `_get_qcls_by_date`. -/
def toRow (r : QclRecord) : QclRow :=
  ⟨r.patient_id, r.last_name, r.first_name, r.due, r.act, r.task⟩

/-- Embeds `_get_qcls_by_date` (lines 203–241) over an abstract database:
the `WHERE` clause keeps rows whose trimmed responsible-staff last name equals
the trimmed location and whose completion time `Act_DtTm` satisfies
`start ≤ Act_DtTm < end`; the result is then sorted descending by
`actual_completed_time` (`sort_values(by=["actual_completed_time"],
ascending=False)`). -/
def getQclsByDate (db : List QclRecord) (location : String) (start stop : ℤ) :
    List QclRow :=
  ((db.filter fun r =>
      r.staff_last_name.trim == location.trim
        && decide (start ≤ r.act) && decide (r.act < stop)).map toRow).mergeSort
    fun a b => decide (b.actual_completed_time ≤ a.actual_completed_time)

/-- A proleptic Gregorian calendar date, embedding Python `datetime` values
(year at least `datetime.MINYEAR = 1`). -/
structure Date where
  year : ℤ
  month : ℤ
  day : ℤ
deriving DecidableEq

/-- Gregorian leap-year rule, as implemented by Python's `datetime`. -/
def isLeapYear (y : ℤ) : Bool :=
  y % 4 == 0 && (y % 100 != 0 || y % 400 == 0)

/-- Number of days in the given month of the given year. -/
def daysInMonth (y m : ℤ) : ℤ :=
  if m = 2 then (if isLeapYear y then 29 else 28)
  else if m = 4 ∨ m = 6 ∨ m = 9 ∨ m = 11 then 30
  else 31

/-- Validity of a `Date` as a Python `datetime` (year ≥ `MINYEAR = 1`). -/
def Date.valid (d : Date) : Prop :=
  1 ≤ d.year ∧ 1 ≤ d.month ∧ d.month ≤ 12 ∧ 1 ≤ d.day ∧
    d.day ≤ daysInMonth d.year d.month

instance (d : Date) : Decidable d.valid := by
  unfold Date.valid; infer_instance

/-- Embeds `_get_start_of_month`: `dt.replace(day=1)`. -/
def getStartOfMonth (d : Date) : Date := ⟨d.year, d.month, 1⟩

/-- Embeds `dt - datetime.timedelta(days=1)`: the preceding calendar day, or
`none` when the input is `datetime.min`'s day (year 1, January 1), where Python
raises `OverflowError: date value out of range`. -/
def subOneDay (d : Date) : Option Date :=
  if 2 ≤ d.day then some ⟨d.year, d.month, d.day - 1⟩
  else if 2 ≤ d.month then some ⟨d.year, d.month - 1, daysInMonth d.year (d.month - 1)⟩
  else if 2 ≤ d.year then some ⟨d.year - 1, 12, 31⟩
  else none

/-- Embeds `_get_start_of_last_month` (lines 194–200): step to the first day of
the input's month, subtract one day, and take the first day of that month. -/
def getStartOfLastMonth (d : Date) : Option Date :=
  (subOneDay (getStartOfMonth d)).map getStartOfMonth

end QclCounter

namespace MuDensity

theorem interp_self (a : ℚ) (n i : ℕ) : interp a a n i = a := by
  unfold interp
  split
  · rfl
  · ring

theorem densAt_const (a b res x : ℚ) {n : ℕ} (hn : 0 < n) :
    densAt a a b b res n x = coverage a b x res := by
  unfold densAt
  simp only [interp_self, Finset.sum_const, Finset.card_range, nsmul_eq_mul]
  rw [mul_comm, mul_div_cancel_right₀]
  exact_mod_cast hn.ne'

theorem clampQ_mono (L R : ℚ) {y y' : ℚ} (h : y ≤ y') : clampQ L R y ≤ clampQ L R y' :=
  max_le_max (le_refl L) (min_le_min h (le_refl R))

theorem clampQ_abs_sub_le (L R y y' : ℚ) :
    |clampQ L R y' - clampQ L R y| ≤ |y' - y| := by
  unfold clampQ
  calc |max L (min y' R) - max L (min y R)|
      = |max (min y' R) L - max (min y R) L| := by rw [max_comm L, max_comm L]
    _ ≤ |min y' R - min y R| := abs_max_sub_max_le_abs _ _ _
    _ ≤ max |y' - y| |R - R| := abs_min_sub_min_le_max _ _ _ _
    _ = |y' - y| := by simp

theorem coverage_nonneg (L R x : ℚ) {w : ℚ} (hw : 0 < w) : 0 ≤ coverage L R x w := by
  unfold coverage
  apply div_nonneg _ hw.le
  have h := clampQ_mono L R (show x - w / 2 ≤ x + w / 2 by linarith)
  linarith

theorem coverage_le_one (L R x : ℚ) {w : ℚ} (hw : 0 < w) : coverage L R x w ≤ 1 := by
  unfold coverage
  rw [div_le_one hw]
  have h := clampQ_abs_sub_le L R (x - w / 2) (x + w / 2)
  have h2 : x + w / 2 - (x - w / 2) = w := by ring
  rw [h2] at h
  rw [abs_of_pos hw] at h
  exact (abs_le.mp h).2

theorem clampQ_sub_eq_full_iff {L R a b : ℚ} (hab : a < b) :
    clampQ L R b - clampQ L R a = b - a ↔ L ≤ a ∧ b ≤ R := by
  constructor
  · intro h
    unfold clampQ at h
    simp only [max_def, min_def] at h
    split_ifs at h <;> constructor <;> linarith
  · rintro ⟨h1, h2⟩
    unfold clampQ
    rw [min_eq_left h2, min_eq_left (by linarith : a ≤ R),
      max_eq_right (by linarith : L ≤ b), max_eq_right h1]

theorem clampQ_sub_eq_zero_iff {L R a b : ℚ} (hab : a < b) :
    clampQ L R b - clampQ L R a = 0 ↔ min b R ≤ max a L := by
  constructor
  · intro h
    unfold clampQ at h
    simp only [max_def, min_def] at h
    simp only [min_def, max_def]
    split_ifs at h <;> split_ifs <;> linarith
  · intro h
    unfold clampQ
    simp only [min_def, max_def] at h ⊢
    split_ifs at h ⊢ <;> linarith

theorem coverage_eq_one_iff (L R x : ℚ) {w : ℚ} (hw : 0 < w) :
    coverage L R x w = 1 ↔ L ≤ x - w / 2 ∧ x + w / 2 ≤ R := by
  unfold coverage
  rw [div_eq_one_iff_eq hw.ne']
  have h2 : w = x + w / 2 - (x - w / 2) := by ring
  rw [show (clampQ L R (x + w / 2) - clampQ L R (x - w / 2) = w) =
      (clampQ L R (x + w / 2) - clampQ L R (x - w / 2) = x + w / 2 - (x - w / 2))
      from by rw [← h2]]
  exact clampQ_sub_eq_full_iff (by linarith)

theorem coverage_eq_zero_iff (L R x : ℚ) {w : ℚ} (hw : 0 < w) :
    coverage L R x w = 0 ↔ min (x + w / 2) R ≤ max (x - w / 2) L := by
  unfold coverage
  rw [div_eq_zero_iff]
  constructor
  · rintro (h | h)
    · exact (clampQ_sub_eq_zero_iff (by linarith)).mp h
    · exact absurd h hw.ne'
  · intro h
    exact Or.inl ((clampQ_sub_eq_zero_iff (by linarith)).mpr h)

theorem coverage_closed (L x w : ℚ) : coverage L L x w = 0 := by
  unfold coverage clampQ
  rw [max_eq_left (min_le_right _ _), max_eq_left (min_le_right _ _)]
  simp

theorem densAt_nonneg (l0 l1 r0 r1 x : ℚ) {res : ℚ} (hres : 0 < res) (n : ℕ) :
    0 ≤ densAt l0 l1 r0 r1 res n x := by
  unfold densAt
  apply div_nonneg _ (Nat.cast_nonneg n)
  exact Finset.sum_nonneg fun i _ => coverage_nonneg _ _ _ hres

theorem densAt_le_one (l0 l1 r0 r1 x : ℚ) {res : ℚ} (hres : 0 < res) {n : ℕ}
    (hn : 0 < n) : densAt l0 l1 r0 r1 res n x ≤ 1 := by
  unfold densAt
  rw [div_le_one (by exact_mod_cast hn)]
  calc ∑ i in Finset.range n, coverage (interp l0 l1 n i) (interp r0 r1 n i) x res
      ≤ ∑ _i in Finset.range n, (1 : ℚ) :=
        Finset.sum_le_sum fun i _ => coverage_le_one _ _ _ hres
    _ = n := by simp

theorem densAt_eq_zero (l0 l1 r0 r1 x res : ℚ) {n : ℕ}
    (h : ∀ i < n, coverage (interp l0 l1 n i) (interp r0 r1 n i) x res = 0) :
    densAt l0 l1 r0 r1 res n x = 0 := by
  unfold densAt
  rw [Finset.sum_eq_zero (fun i hi => h i (Finset.mem_range.mp hi))]
  simp

theorem densAt_eq_one (l0 l1 r0 r1 x res : ℚ) {n : ℕ} (hn : 0 < n)
    (h : ∀ i < n, coverage (interp l0 l1 n i) (interp r0 r1 n i) x res = 1) :
    densAt l0 l1 r0 r1 res n x = 1 := by
  unfold densAt
  rw [Finset.sum_congr rfl (fun i hi => h i (Finset.mem_range.mp hi))]
  simp only [Finset.sum_const, Finset.card_range, nsmul_eq_mul, mul_one]
  rw [div_self (by exact_mod_cast hn.ne' : (n : ℚ) ≠ 0)]

theorem compute_inv {l0 l1 r0 r1 res : ℚ} {n : ℤ} {g d : List ℚ}
    (h : compute [l0, l1] [r0, r1] res n = some (g, d)) :
    1 ≤ n ∧ 0 < res ∧ g = gridCoords l0 l1 r0 r1 res ∧
      d = g.map (densAt l0 l1 r0 r1 res n.toNat) := by
  by_cases hc : 1 ≤ n ∧ 0 < res
  · rw [show compute [l0, l1] [r0, r1] res n =
        (if 1 ≤ n ∧ 0 < res then
          some (gridCoords l0 l1 r0 r1 res,
            (gridCoords l0 l1 r0 r1 res).map (densAt l0 l1 r0 r1 res n.toNat))
         else none) from rfl, if_pos hc] at h
    obtain ⟨h1, h2⟩ := Prod.mk.injEq .. ▸ Option.some.injEq .. ▸ h
    exact ⟨hc.1, hc.2, h1.symm, by rw [h1] at h2; exact h2.symm⟩
  · rw [show compute [l0, l1] [r0, r1] res n =
        (if 1 ≤ n ∧ 0 < res then
          some (gridCoords l0 l1 r0 r1 res,
            (gridCoords l0 l1 r0 r1 res).map (densAt l0 l1 r0 r1 res n.toNat))
         else none) from rfl, if_neg hc] at h
    exact absurd h (by simp)

theorem compute_pair (l0 l1 r0 r1 res : ℚ) (n : ℤ) :
    compute [l0, l1] [r0, r1] res n =
      if 1 ≤ n ∧ 0 < res then
        some (gridCoords l0 l1 r0 r1 res,
          (gridCoords l0 l1 r0 r1 res).map (densAt l0 l1 r0 r1 res n.toNat))
      else none := rfl

theorem computeCenterIndicator_pair (l0 l1 r0 r1 res : ℚ) (n : ℤ) :
    computeCenterIndicator [l0, l1] [r0, r1] res n =
      if 1 ≤ n ∧ 0 < res then
        some (gridCoords l0 l1 r0 r1 res,
          (gridCoords l0 l1 r0 r1 res).map (specCenterDensAt l0 l1 r0 r1 n.toNat))
      else none := rfl

end MuDensity

/-- C1: for the stationary leaf pair `left = (-1, -1)`, `right = (2.7, 2.7)` with
`grid_resolution = 1` and `time_steps = 1000`, the accumulator returns exactly five
cells with MU density `[0.5, 1, 1, 1, 0.2]` (here exactly, hence within any tight
tolerance), the boundary cells taking the fractional spatial coverage of the
aperture over those cells. -/
theorem C1_stationary_occlusion :
    MuDensity.compute [-1, -1] [27/10, 27/10] 1 1000 =
      some ([-1, 0, 1, 2, 3], [1/2, 1, 1, 1, 1/5]) := by
  have hg : MuDensity.gridCoords (-1) (-1) (27/10) (27/10) 1 = [-1, 0, 1, 2, 3] := by
    simp only [MuDensity.gridCoords]
    have h1 : ⌊min (min (-1 : ℚ) (-1)) (min (27/10) (27/10)) / 1⌋ = -1 := by
      norm_num
    have h2 : ⌈max (max (-1 : ℚ) (-1)) (max (27/10) (27/10)) / 1⌉ = 3 := by
      rw [Int.ceil_eq_iff]
      norm_num
    rw [h1, h2]
    have h5 : ((3 : ℤ) - -1 + 1).toNat = 5 := rfl
    rw [h5]
    have hr : List.range 5 = [0, 1, 2, 3, 4] := rfl
    rw [hr]
    simp only [List.map_cons, List.map_nil]
    norm_num
  show (if 1 ≤ (1000 : ℤ) ∧ (0 : ℚ) < 1 then _ else none) = _
  rw [if_pos (by norm_num)]
  rw [hg]
  have hd : ∀ x : ℚ, MuDensity.densAt (-1) (-1) (27/10) (27/10) 1 (Int.toNat 1000) x =
      MuDensity.coverage (-1) (27/10) x 1 := by
    intro x
    exact MuDensity.densAt_const _ _ _ _ (by norm_num)
  simp only [List.map_cons, List.map_nil, hd]
  norm_num [MuDensity.coverage, MuDensity.clampQ]

theorem compute_eval_sample :
    MuDensity.compute [0, 0] [2, 2] 1 1 = some ([0, 1, 2], [1/2, 1, 1/2]) := by
  have hg : MuDensity.gridCoords 0 0 2 2 1 = [0, 1, 2] := by
    simp only [MuDensity.gridCoords]
    have h1 : ⌊min (min (0 : ℚ) 0) (min 2 2) / 1⌋ = 0 := by norm_num
    have h2 : ⌈max (max (0 : ℚ) 0) (max 2 2) / 1⌉ = 2 := by norm_num
    rw [h1, h2]
    have h5 : ((2 : ℤ) - 0 + 1).toNat = 3 := rfl
    rw [h5]
    have hr : List.range 3 = [0, 1, 2] := rfl
    rw [hr]
    simp only [List.map_cons, List.map_nil]
    norm_num
  rw [MuDensity.compute_pair, if_pos (by norm_num), hg]
  have hd : ∀ x : ℚ, MuDensity.densAt 0 0 2 2 1 (Int.toNat 1) x =
      MuDensity.coverage 0 2 x 1 :=
    fun _ => MuDensity.densAt_const _ _ _ _ (by norm_num)
  simp only [List.map_cons, List.map_nil, hd]
  norm_num [MuDensity.coverage, MuDensity.clampQ]

/-- C2 counterexample: at the valid input `left = (0, 0)`, `right = (1/3, 1/3)`,
`grid_resolution = 1`, `time_steps = 1`, the accumulator's density at the first
cell is 1/3, while the claimed centre-indicator semantics (cell open iff its
centre lies strictly between the edges, density = open count / time_steps) yields
0 there — and 1/3 is not a multiple of 1/time_steps = 1 at all. -/
theorem C2_centerIndicator_counterexample :
    MuDensity.compute [0, 0] [1/3, 1/3] 1 1 = some ([0, 1], [1/3, 0]) ∧
    MuDensity.computeCenterIndicator [0, 0] [1/3, 1/3] 1 1 =
      some ([0, 1], [0, 0]) ∧
    (1/3 : ℚ) ≠ 0 ∧ (1/3 : ℚ) ≠ 1 := by
  have hg : MuDensity.gridCoords 0 0 (1/3) (1/3) 1 = [0, 1] := by
    simp only [MuDensity.gridCoords]
    have h1 : ⌊min (min (0 : ℚ) 0) (min (1/3) (1/3)) / 1⌋ = 0 := by norm_num
    have h2 : ⌈max (max (0 : ℚ) 0) (max (1/3) (1/3)) / 1⌉ = 1 := by
      rw [Int.ceil_eq_iff]
      norm_num
    rw [h1, h2]
    have h5 : ((1 : ℤ) - 0 + 1).toNat = 2 := rfl
    rw [h5]
    have hr : List.range 2 = [0, 1] := rfl
    rw [hr]
    simp only [List.map_cons, List.map_nil]
    norm_num
  refine ⟨?_, ?_, by norm_num, by norm_num⟩
  · rw [MuDensity.compute_pair, if_pos (by norm_num), hg]
    have hd : ∀ x : ℚ, MuDensity.densAt 0 0 (1/3) (1/3) 1 (Int.toNat 1) x =
        MuDensity.coverage 0 (1/3) x 1 :=
      fun _ => MuDensity.densAt_const _ _ _ _ (by norm_num)
    simp only [List.map_cons, List.map_nil, hd]
    norm_num [MuDensity.coverage, MuDensity.clampQ]
  · rw [MuDensity.computeCenterIndicator_pair, if_pos (by norm_num), hg]
    simp only [List.map_cons, List.map_nil]
    have hcen : ∀ x : ℚ, ¬(MuDensity.interp 0 0 (Int.toNat 1) 0 < x ∧
        x < MuDensity.interp (1/3) (1/3) (Int.toNat 1) 0) →
        MuDensity.specCenterDensAt 0 0 (1/3) (1/3) (Int.toNat 1) x = 0 := by
      intro x hx
      unfold MuDensity.specCenterDensAt
      rw [show Int.toNat 1 = 1 from rfl] at hx ⊢
      rw [Finset.range_one, Finset.filter_singleton, if_neg hx]
      simp
    rw [hcen 0 (by rw [MuDensity.interp_self]; norm_num),
      hcen 1 (by rw [MuDensity.interp_self, MuDensity.interp_self]; norm_num)]

/-- C2 (amended): for every valid input and every grid cell, the MU density equals
the mean over time samples of the per-sample open fraction of that cell — the
fraction of the cell's width lying inside the open interval between the left and
right leaf edges at that sample.  The fraction lies in [0, 1]; it is 1 exactly
when the whole cell lies inside the open interval, and 0 exactly when the cell
does not meet it.  (Output values are therefore multiples of 1/time_steps only
when every per-sample fraction is 0 or 1, not in general.) -/
theorem C2_coverage_semantics (l0 l1 r0 r1 res : ℚ) (n : ℤ) (g d : List ℚ)
    (h : MuDensity.compute [l0, l1] [r0, r1] res n = some (g, d))
    (j : ℕ) (hj : j < g.length) (hd : j < d.length) :
    d[j] = (∑ i in Finset.range n.toNat,
        MuDensity.coverage (MuDensity.interp l0 l1 n.toNat i)
          (MuDensity.interp r0 r1 n.toNat i) g[j] res) / (n.toNat : ℚ) ∧
    ∀ i : ℕ,
      0 ≤ MuDensity.coverage (MuDensity.interp l0 l1 n.toNat i)
          (MuDensity.interp r0 r1 n.toNat i) g[j] res ∧
      MuDensity.coverage (MuDensity.interp l0 l1 n.toNat i)
          (MuDensity.interp r0 r1 n.toNat i) g[j] res ≤ 1 ∧
      (MuDensity.coverage (MuDensity.interp l0 l1 n.toNat i)
          (MuDensity.interp r0 r1 n.toNat i) g[j] res = 1 ↔
        MuDensity.interp l0 l1 n.toNat i ≤ g[j] - res / 2 ∧
          g[j] + res / 2 ≤ MuDensity.interp r0 r1 n.toNat i) ∧
      (MuDensity.coverage (MuDensity.interp l0 l1 n.toNat i)
          (MuDensity.interp r0 r1 n.toNat i) g[j] res = 0 ↔
        min (g[j] + res / 2) (MuDensity.interp r0 r1 n.toNat i) ≤
          max (g[j] - res / 2) (MuDensity.interp l0 l1 n.toNat i)) := by
  obtain ⟨hn, hres, hg, hdm⟩ := MuDensity.compute_inv h
  subst hg
  subst hdm
  rw [List.getElem_map]
  exact ⟨rfl, fun i =>
    ⟨MuDensity.coverage_nonneg _ _ _ hres, MuDensity.coverage_le_one _ _ _ hres,
      MuDensity.coverage_eq_one_iff _ _ _ hres,
      MuDensity.coverage_eq_zero_iff _ _ _ hres⟩⟩

theorem C2_coverage_semantics_witness :
    MuDensity.compute [0, 0] [2, 2] 1 1 = some ([0, 1, 2], [1/2, 1, 1/2]) ∧
    ([1/2, 1, 1/2] : List ℚ)[0] = (∑ i in Finset.range (1 : ℤ).toNat,
        MuDensity.coverage (MuDensity.interp 0 0 (1 : ℤ).toNat i)
          (MuDensity.interp 2 2 (1 : ℤ).toNat i) (([0, 1, 2] : List ℚ)[0]) 1) /
      (((1 : ℤ).toNat : ℚ)) :=
  ⟨compute_eval_sample,
    (C2_coverage_semantics 0 0 2 2 1 1 [0, 1, 2] [1/2, 1, 1/2] compute_eval_sample 0
      (by decide) (by decide)).1⟩

/-- C4: the accumulator fails with an invalid-argument condition (produces no
result) exactly when `time_steps < 1`, or `grid_resolution ≤ 0`, or either
position sequence does not have exactly two elements; on every other input it
produces a result (no out-of-range input is silently clamped). -/
theorem C4_argument_validation (left right : List ℚ) (res : ℚ) (n : ℤ) :
    MuDensity.compute left right res n = none ↔
      n < 1 ∨ res ≤ 0 ∨ left.length ≠ 2 ∨ right.length ≠ 2 := by
  have hlen3 : ∀ (t : List ℚ) (a b c : ℚ), (a :: b :: c :: t).length ≠ 2 := by
    intro t a b c
    simp only [List.length_cons]
    omega
  rcases left with _ | ⟨a, _ | ⟨b, _ | ⟨c, t⟩⟩⟩
  · exact iff_of_true rfl (Or.inr (Or.inr (Or.inl (by simp))))
  · exact iff_of_true rfl (Or.inr (Or.inr (Or.inl (by simp))))
  · rcases right with _ | ⟨a', _ | ⟨b', _ | ⟨c', t'⟩⟩⟩
    · exact iff_of_true rfl (Or.inr (Or.inr (Or.inr (by simp))))
    · exact iff_of_true rfl (Or.inr (Or.inr (Or.inr (by simp))))
    · have hiff : MuDensity.compute [a, b] [a', b'] res n = none ↔
          ¬(1 ≤ n ∧ 0 < res) := by
        constructor
        · intro h hc
          rw [MuDensity.compute_pair, if_pos hc] at h
          exact Option.noConfusion h
        · intro hc
          rw [MuDensity.compute_pair, if_neg hc]
      rw [hiff, not_and_or, not_le, not_lt]
      simp
    · exact iff_of_true rfl (Or.inr (Or.inr (Or.inr (hlen3 t' a' b' c'))))
  · exact iff_of_true rfl (Or.inr (Or.inr (Or.inl (hlen3 t a b c))))

/-- C5: for every valid input, the returned `mu_density` has the same length as
the returned `grid_coordinates` and every value lies in [0, 1]; a cell never
meeting the open aperture at any sampled time is exactly 0, and a cell fully open
at every sampled time is exactly 1. -/
theorem C5_bounds (l0 l1 r0 r1 res : ℚ) (n : ℤ) (g d : List ℚ)
    (h : MuDensity.compute [l0, l1] [r0, r1] res n = some (g, d)) :
    d.length = g.length ∧
    (∀ v ∈ d, 0 ≤ v ∧ v ≤ 1) ∧
    (∀ j, ∀ hj : j < g.length, ∀ hd : j < d.length,
      ((∀ i < n.toNat,
          min (g[j] + res / 2) (MuDensity.interp r0 r1 n.toNat i) ≤
            max (g[j] - res / 2) (MuDensity.interp l0 l1 n.toNat i)) → d[j] = 0) ∧
      ((∀ i < n.toNat,
          MuDensity.interp l0 l1 n.toNat i ≤ g[j] - res / 2 ∧
            g[j] + res / 2 ≤ MuDensity.interp r0 r1 n.toNat i) → d[j] = 1)) := by
  obtain ⟨hn, hres, hg, hdm⟩ := MuDensity.compute_inv h
  subst hg
  subst hdm
  have hnn : 0 < n.toNat := by omega
  refine ⟨List.length_map _ _, ?_, ?_⟩
  · intro v hv
    rw [List.mem_map] at hv
    obtain ⟨x, _, rfl⟩ := hv
    exact ⟨MuDensity.densAt_nonneg _ _ _ _ _ hres _,
      MuDensity.densAt_le_one _ _ _ _ _ hres hnn⟩
  · intro j hj hd
    rw [List.getElem_map]
    constructor
    · intro hcond
      exact MuDensity.densAt_eq_zero _ _ _ _ _ _ fun i hi =>
        (MuDensity.coverage_eq_zero_iff _ _ _ hres).mpr (hcond i hi)
    · intro hcond
      exact MuDensity.densAt_eq_one _ _ _ _ _ _ hnn fun i hi =>
        (MuDensity.coverage_eq_one_iff _ _ _ hres).mpr (hcond i hi)

theorem C5_bounds_witness :
    MuDensity.compute [0, 0] [2, 2] 1 1 = some ([0, 1, 2], [1/2, 1, 1/2]) ∧
    ([1/2, 1, 1/2] : List ℚ).length = ([0, 1, 2] : List ℚ).length ∧
    (∀ v ∈ ([1/2, 1, 1/2] : List ℚ), 0 ≤ v ∧ v ≤ 1) :=
  ⟨compute_eval_sample,
    (C5_bounds 0 0 2 2 1 1 [0, 1, 2] [1/2, 1, 1/2] compute_eval_sample).1,
    (C5_bounds 0 0 2 2 1 1 [0, 1, 2] [1/2, 1, 1/2] compute_eval_sample).2.1⟩

theorem compute_closed_eval :
    MuDensity.compute [0, 1] [0, 1] 1 2 = some ([0, 1], [0, 0]) := by
  have hg : MuDensity.gridCoords 0 1 0 1 1 = [0, 1] := by
    simp only [MuDensity.gridCoords]
    have h1 : ⌊min (min (0 : ℚ) 1) (min 0 1) / 1⌋ = 0 := by norm_num
    have h2 : ⌈max (max (0 : ℚ) 1) (max 0 1) / 1⌉ = 1 := by norm_num
    rw [h1, h2]
    have h5 : ((1 : ℤ) - 0 + 1).toNat = 2 := rfl
    rw [h5]
    have hr : List.range 2 = [0, 1] := rfl
    rw [hr]
    simp only [List.map_cons, List.map_nil]
    norm_num
  rw [MuDensity.compute_pair, if_pos (by norm_num), hg]
  have hd : ∀ x : ℚ, MuDensity.densAt 0 1 0 1 1 (Int.toNat 2) x = 0 := fun x =>
    MuDensity.densAt_eq_zero _ _ _ _ _ _ fun i _ => MuDensity.coverage_closed _ _ _
  simp only [List.map_cons, List.map_nil, hd]

/-- C6: when the leaf pair is fully closed at all times (left and right edge
trajectories coincide), the accumulator returns an MU density that is zero at
every grid cell. -/
theorem C6_full_occlusion (l0 l1 res : ℚ) (n : ℤ) (g d : List ℚ)
    (h : MuDensity.compute [l0, l1] [l0, l1] res n = some (g, d)) :
    ∀ v ∈ d, v = 0 := by
  obtain ⟨hn, hres, hg, hdm⟩ := MuDensity.compute_inv h
  subst hdm
  intro v hv
  rw [List.mem_map] at hv
  obtain ⟨x, _, rfl⟩ := hv
  exact MuDensity.densAt_eq_zero _ _ _ _ _ _ fun i _ =>
    MuDensity.coverage_closed _ _ _

theorem C6_full_occlusion_witness :
    MuDensity.compute [0, 1] [0, 1] 1 2 = some ([0, 1], [0, 0]) ∧
    ∀ v ∈ ([0, 0] : List ℚ), v = 0 :=
  ⟨compute_closed_eval, C6_full_occlusion 0 1 1 2 [0, 1] [0, 0] compute_closed_eval⟩

/-- C7: determinism — the accumulator is a pure function of its four arguments:
two calls with identical arguments return identical (grid, mu_density) results
(the embedding has no other state a call could read or mutate). -/
theorem C7_determinism (left right left' right' : List ℚ) (res res' : ℚ) (n n' : ℤ)
    (hl : left = left') (hr : right = right') (hres : res = res') (hn : n = n') :
    MuDensity.compute left right res n = MuDensity.compute left' right' res' n' := by
  subst hl
  subst hr
  subst hres
  subst hn
  rfl

theorem C7_determinism_witness :
    ([0, 0] : List ℚ) = [0, 0] ∧ ([2, 2] : List ℚ) = [2, 2] ∧ (1 : ℚ) = 1 ∧
      (1 : ℤ) = 1 ∧
      MuDensity.compute [0, 0] [2, 2] 1 1 = MuDensity.compute [0, 0] [2, 2] 1 1 :=
  ⟨rfl, rfl, rfl, rfl,
    C7_determinism [0, 0] [2, 2] [0, 0] [2, 2] 1 1 1 1 rfl rfl rfl rfl⟩

theorem siteEntry_none_iff (s : QclCounter.SiteConfig) :
    QclCounter.siteEntry s = none ↔ QclCounter.hasCompleteMosaiq s = false := by
  obtain ⟨nm, mos⟩ := s
  cases mos with
  | none => simp [QclCounter.siteEntry, QclCounter.hasCompleteMosaiq]
  | some m =>
    obtain ⟨ploc, phn, pp, pal⟩ := m
    cases ploc <;> cases phn <;> cases pp <;> cases pal <;>
      simp [QclCounter.siteEntry, QclCounter.hasCompleteMosaiq]

/-- C8: sites missing the `mosaiq` block or any of the sub-keys
`physics_qcl_location`, `hostname`, `port`, `alias` are silently excluded from the
candidate map — building the map over all sites equals building it over only the
complete sites, and every complete site contributes its entry — and when the
candidate map is empty the program halts with the user-visible warning (a
controlled `Except.error`, not a crash), and only then. -/
theorem C8_config_skip_and_halt (sites : List QclCounter.SiteConfig) :
    QclCounter.buildSiteConfigMap sites =
      QclCounter.buildSiteConfigMap (sites.filter QclCounter.hasCompleteMosaiq) ∧
    (∀ s ∈ sites, ∀ m loc hn p al,
      s.mosaiq = some m → m.physics_qcl_location = some loc →
      m.hostname = some hn → m.port = some p → m.mosaiqAlias = some al →
      (s.name, (⟨loc, hn, p, al⟩ : QclCounter.SiteEntry)) ∈
        QclCounter.buildSiteConfigMap sites) ∧
    (QclCounter.configStage sites = Except.error QclCounter.emptyConfigWarning ↔
      QclCounter.buildSiteConfigMap sites = []) := by
  refine ⟨?_, ?_, ?_⟩
  · induction sites with
    | nil => rfl
    | cons s ss ih =>
      cases hc : QclCounter.hasCompleteMosaiq s with
      | false =>
        have hnone : QclCounter.siteEntry s = none := (siteEntry_none_iff s).mpr hc
        simp [QclCounter.buildSiteConfigMap, List.filterMap_cons, List.filter_cons,
          hnone, hc] at ih ⊢
        exact ih
      | true =>
        rcases he : QclCounter.siteEntry s with _ | e
        · exact absurd ((siteEntry_none_iff s).mp he) (by rw [hc]; simp)
        · simp [QclCounter.buildSiteConfigMap, List.filterMap_cons, List.filter_cons,
            he, hc] at ih ⊢
          exact ih
  · intro s hs m loc hn p al h1 h2 h3 h4 h5
    unfold QclCounter.buildSiteConfigMap
    refine List.mem_filterMap.mpr ⟨s, hs, ?_⟩
    simp [QclCounter.siteEntry, h1, h2, h3, h4, h5]
  · have hcs : QclCounter.configStage sites =
        (if (QclCounter.buildSiteConfigMap sites).isEmpty then
          Except.error QclCounter.emptyConfigWarning
         else Except.ok (QclCounter.buildSiteConfigMap sites)) := rfl
    rcases hm : QclCounter.buildSiteConfigMap sites with _ | ⟨e, es⟩ <;>
      rw [hm] at hcs <;> rw [hcs] <;> simp

theorem C8_config_skip_and_halt_witness :
    QclCounter.buildSiteConfigMap
        [⟨"incomplete", none⟩,
         ⟨"complete", some ⟨some "loc", some "host", some 1433, some "Site A"⟩⟩] =
      QclCounter.buildSiteConfigMap
        (List.filter QclCounter.hasCompleteMosaiq
          [⟨"incomplete", none⟩,
           ⟨"complete", some ⟨some "loc", some "host", some 1433, some "Site A"⟩⟩]) ∧
    ("complete", (⟨"loc", "host", 1433, "Site A"⟩ : QclCounter.SiteEntry)) ∈
      QclCounter.buildSiteConfigMap
        [⟨"incomplete", none⟩,
         ⟨"complete", some ⟨some "loc", some "host", some 1433, some "Site A"⟩⟩] :=
  ⟨(C8_config_skip_and_halt _).1,
    (C8_config_skip_and_halt _).2.1
      ⟨"complete", some ⟨some "loc", some "host", some 1433, some "Site A"⟩⟩
      (by simp) _ _ _ _ _ rfl rfl rfl rfl rfl⟩

/-- C9: the per-site QCL query result delivered to the tabular sink is a table
whose rows are exactly the six-column projections (`patient_id, last_name,
first_name, due, actual_completed_time, task`) of the database records matching
the query's location and whose completion time lies in the half-open interval
`[start, stop)`, sorted in descending order of `actual_completed_time`. -/
theorem C9_qcl_query (db : List QclCounter.QclRecord) (location : String)
    (start stop : ℤ) :
    (∀ row, row ∈ QclCounter.getQclsByDate db location start stop ↔
      ∃ r ∈ db, r.staff_last_name.trim = location.trim ∧
        start ≤ r.act ∧ r.act < stop ∧ row = QclCounter.toRow r) ∧
    (QclCounter.getQclsByDate db location start stop).Pairwise
      (fun a b => b.actual_completed_time ≤ a.actual_completed_time) := by
  unfold QclCounter.getQclsByDate
  constructor
  · intro row
    rw [(List.mergeSort_perm _ _).mem_iff, List.mem_map]
    constructor
    · rintro ⟨r, hr, rfl⟩
      rw [List.mem_filter] at hr
      obtain ⟨hmem, hcond⟩ := hr
      simp only [Bool.and_eq_true, beq_iff_eq, decide_eq_true_eq] at hcond
      exact ⟨r, hmem, hcond.1.1, hcond.1.2, hcond.2, rfl⟩
    · rintro ⟨r, hmem, h1, h2, h3, rfl⟩
      refine ⟨r, List.mem_filter.mpr ⟨hmem, ?_⟩, rfl⟩
      simp only [Bool.and_eq_true, beq_iff_eq, decide_eq_true_eq]
      exact ⟨⟨h1, h2⟩, h3⟩
  · refine List.Pairwise.imp (fun h => of_decide_eq_true h)
      (List.sorted_mergeSort ?_ ?_ ((db.filter _).map QclCounter.toRow))
    · intro a b c hab hbc
      simp only [decide_eq_true_eq] at hab hbc ⊢
      exact le_trans hbc hab
    · intro a b
      simp only [Bool.or_eq_true, decide_eq_true_eq]
      exact le_total b.actual_completed_time a.actual_completed_time

theorem C9_qcl_query_witness :
    (QclCounter.getQclsByDate
        [⟨"P1", "Doe", "Jane", 5, 10, "Task A", "Physics"⟩,
         ⟨"P2", "Roe", "Sam", 6, 15, "Task B", "Physics"⟩]
        "Physics" 0 20).Pairwise
      (fun a b => b.actual_completed_time ≤ a.actual_completed_time) :=
  (C9_qcl_query
    [⟨"P1", "Doe", "Jane", 5, 10, "Task A", "Physics"⟩,
     ⟨"P2", "Roe", "Sam", 6, 15, "Task B", "Physics"⟩]
    "Physics" 0 20).2

/-- C10 counterexample: January of year 1 (`datetime.MINYEAR`) is a valid datetime
input, yet `_get_start_of_last_month` produces no result there — Python raises
`OverflowError: date value out of range` on
`datetime(1, 1, 1) - timedelta(days=1)` — so the function does not return the
first day of the preceding month for *every* datetime input. -/
theorem C10_minyear_counterexample :
    QclCounter.Date.valid ⟨1, 1, 15⟩ ∧
    QclCounter.getStartOfLastMonth ⟨1, 1, 15⟩ = none :=
  ⟨by decide, rfl⟩

/-- C10 (amended): for every valid datetime input outside January of year 1
(where Python's `datetime` raises `OverflowError`), `_get_start_of_last_month`
returns the first day of the calendar month immediately preceding the input's
month — rolling the year back for January inputs, and handling inputs that are
themselves the first of a month — by stepping to the input month's first day,
subtracting one day, and taking that month's first day. -/
theorem C10_start_of_last_month (d : QclCounter.Date) (hv : d.valid)
    (h : 2 ≤ d.year ∨ 2 ≤ d.month) :
    QclCounter.getStartOfLastMonth d =
      some (if d.month = 1 then ⟨d.year - 1, 12, 1⟩
            else ⟨d.year, d.month - 1, 1⟩) := by
  obtain ⟨y, m, dd⟩ := d
  obtain ⟨hy, hm1, hm2, hd1, hd2⟩ := hv
  simp only at h hy hm1 hm2 hd1 hd2 ⊢
  simp only [QclCounter.getStartOfLastMonth, QclCounter.getStartOfMonth,
    QclCounter.subOneDay]
  rw [if_neg (by omega : ¬(2 : ℤ) ≤ 1)]
  by_cases hm : m = 1
  · subst hm
    rw [if_neg (by omega : ¬(2 : ℤ) ≤ 1), if_pos (by omega : (2 : ℤ) ≤ y)]
    simp [QclCounter.getStartOfMonth]
  · rw [if_pos (by omega : (2 : ℤ) ≤ m)]
    simp [QclCounter.getStartOfMonth, hm]

theorem C10_start_of_last_month_witness :
    QclCounter.Date.valid ⟨2026, 3, 15⟩ ∧
    ((2 : ℤ) ≤ 2026 ∨ (2 : ℤ) ≤ 3) ∧
    QclCounter.getStartOfLastMonth ⟨2026, 3, 15⟩ = some ⟨2026, 2, 1⟩ :=
  ⟨by decide, by decide, by
    rw [C10_start_of_last_month ⟨2026, 3, 15⟩ (by decide) (by decide)]
    decide⟩

theorem coverage_telescope (L R a w : ℚ) (N : ℕ) :
    ∑ m in Finset.range N, MuDensity.coverage L R (a + m * w) w =
      (MuDensity.clampQ L R (a + N * w - w / 2) - MuDensity.clampQ L R (a - w / 2)) / w := by
  have hstep : ∀ m : ℕ, MuDensity.coverage L R (a + m * w) w =
      ((fun i : ℕ => MuDensity.clampQ L R (a + i * w - w / 2)) (m + 1) -
        (fun i : ℕ => MuDensity.clampQ L R (a + i * w - w / 2)) m) / w := by
    intro m
    unfold MuDensity.coverage
    have e1 : a + (m : ℚ) * w + w / 2 = a + ((m + 1 : ℕ) : ℚ) * w - w / 2 := by
      push_cast
      ring
    rw [e1]
  rw [Finset.sum_congr rfl (fun m _ => hstep m), ← Finset.sum_div,
    Finset.sum_range_sub (fun i : ℕ => MuDensity.clampQ L R (a + i * w - w / 2))]
  norm_num

theorem mean_abs_diff_le (n : ℕ) (F G : ℕ → ℚ) (e : ℚ) (he : 0 ≤ e)
    (h : ∀ i < n, |F i - G i| ≤ e) :
    |(∑ i in Finset.range n, F i) / n - (∑ i in Finset.range n, G i) / n| ≤ e := by
  rcases Nat.eq_zero_or_pos n with hn | hn
  · subst hn
    simpa using he
  · rw [div_sub_div_same, abs_div, ← Finset.sum_sub_distrib]
    rw [abs_of_nonneg (by positivity : (0 : ℚ) ≤ (n : ℚ))]
    rw [div_le_iff₀ (by exact_mod_cast hn : (0 : ℚ) < (n : ℚ))]
    calc |∑ i in Finset.range n, (F i - G i)|
        ≤ ∑ i in Finset.range n, |F i - G i| := Finset.abs_sum_le_sum_abs _ _
      _ ≤ ∑ _i in Finset.range n, e :=
          Finset.sum_le_sum (fun i hi => h i (Finset.mem_range.mp hi))
      _ = n * e := by simp [mul_comm]
      _ = e * n := by ring

theorem clamp_window_bound (L R c : ℚ) :
    |(MuDensity.clampQ L R (c + 101/200) - MuDensity.clampQ L R (c - 99/200)) -
      (MuDensity.clampQ L R (c + 1/2) - MuDensity.clampQ L R (c - 1/2))| ≤ 1/200 := by
  have hA0 : 0 ≤ MuDensity.clampQ L R (c + 101/200) - MuDensity.clampQ L R (c + 1/2) := by
    have := MuDensity.clampQ_mono L R (show c + 1/2 ≤ c + 101/200 by linarith)
    linarith
  have hA1 : MuDensity.clampQ L R (c + 101/200) - MuDensity.clampQ L R (c + 1/2) ≤ 1/200 := by
    have h := MuDensity.clampQ_abs_sub_le L R (c + 1/2) (c + 101/200)
    have h2 : |c + 101/200 - (c + 1/2)| = 1/200 := by
      rw [show c + 101/200 - (c + 1/2) = 1/200 by ring]
      norm_num
    rw [h2] at h
    exact (abs_le.mp h).2
  have hB0 : 0 ≤ MuDensity.clampQ L R (c - 99/200) - MuDensity.clampQ L R (c - 1/2) := by
    have := MuDensity.clampQ_mono L R (show c - 1/2 ≤ c - 99/200 by linarith)
    linarith
  have hB1 : MuDensity.clampQ L R (c - 99/200) - MuDensity.clampQ L R (c - 1/2) ≤ 1/200 := by
    have h := MuDensity.clampQ_abs_sub_le L R (c - 1/2) (c - 99/200)
    have h2 : |c - 99/200 - (c - 1/2)| = 1/200 := by
      rw [show c - 99/200 - (c - 1/2) = 1/200 by ring]
      norm_num
    rw [h2] at h
    exact (abs_le.mp h).2
  rw [abs_le]
  constructor <;> linarith

theorem gridCoords_length (l0 l1 r0 r1 res : ℚ) :
    (MuDensity.gridCoords l0 l1 r0 r1 res).length =
      (⌈max (max l0 l1) (max r0 r1) / res⌉ -
        ⌊min (min l0 l1) (min r0 r1) / res⌋ + 1).toNat := by
  simp [MuDensity.gridCoords]

theorem gridCoords_getElem (l0 l1 r0 r1 res : ℚ) (j : ℕ)
    (hj : j < (MuDensity.gridCoords l0 l1 r0 r1 res).length) :
    (MuDensity.gridCoords l0 l1 r0 r1 res)[j] =
      ((⌊min (min l0 l1) (min r0 r1) / res⌋ : ℚ) + j) * res := by
  simp [MuDensity.gridCoords]

theorem gridCoords_getD (l0 l1 r0 r1 res : ℚ) (j : ℕ)
    (hj : j < (MuDensity.gridCoords l0 l1 r0 r1 res).length) :
    (MuDensity.gridCoords l0 l1 r0 r1 res).getD j 0 =
      ((⌊min (min l0 l1) (min r0 r1) / res⌋ : ℚ) + j) * res := by
  rw [List.getD_eq_getElem _ _ hj]
  exact gridCoords_getElem l0 l1 r0 r1 res j hj

theorem int_clamp_eq_iff (lo hi c v : ℤ) (h1 : lo < c) (h2 : c < hi) :
    max lo (min hi v) = c ↔ v = c := by
  simp only [max_def, min_def]
  split_ifs <;> omega

theorem fine_ceil_eq_iff (k : ℕ) (m : ℤ) :
    ⌈((-230 : ℚ) + k) * (1 / 100) - 1 / 2⌉ = m ↔
      (100 * m + 180 < (k : ℤ) ∧ (k : ℤ) ≤ 100 * m + 280) := by
  rw [Int.ceil_eq_iff]
  constructor
  · rintro ⟨h1, h2⟩
    constructor
    · have hq : (100 * (m : ℚ) + 180) < (k : ℚ) := by linarith
      exact_mod_cast hq
    · have hq : (k : ℚ) ≤ 100 * (m : ℚ) + 280 := by linarith
      exact_mod_cast hq
  · rintro ⟨h1, h2⟩
    have h1q : (100 * (m : ℚ) + 180) < (k : ℚ) := by exact_mod_cast h1
    have h2q : (k : ℚ) ≤ 100 * (m : ℚ) + 280 := by exact_mod_cast h2
    constructor
    · linarith
    · linarith

theorem fine_length :
    (MuDensity.gridCoords (-23/10) (31/10) 0 (77/10) (1 / 100)).length = 1001 := by
  rw [gridCoords_length]
  have h1 : ⌊min (min (-23/10 : ℚ) (31/10)) (min 0 (77/10)) / (1 / 100)⌋ = -230 := by
    norm_num
  have h2 : ⌈max (max (-23/10 : ℚ) (31/10)) (max 0 (77/10)) / (1 / 100)⌉ = 770 := by
    rw [Int.ceil_eq_iff]
    norm_num
  rw [h1, h2]
  rfl

theorem fine_getD (k : ℕ) (hk : k < 1001) :
    (MuDensity.gridCoords (-23/10) (31/10) 0 (77/10) (1 / 100)).getD k 0 =
      ((-230 : ℚ) + k) * (1 / 100) := by
  rw [gridCoords_getD _ _ _ _ _ k (by rw [fine_length]; exact hk)]
  have h1 : ⌊min (min (-23/10 : ℚ) (31/10)) (min 0 (77/10)) / (1 / 100)⌋ = -230 := by
    norm_num
  rw [h1]
  push_cast
  ring

theorem assigned_eq (j : ℕ) (hj2 : 2 ≤ j) (hj9 : j ≤ 9) :
    (Finset.range 1001).filter
      (fun k => MuDensity.nearestCoarse (-3) 8
        ((MuDensity.gridCoords (-23/10) (31/10) 0 (77/10) (1 / 100)).getD k 0) =
        -3 + (j : ℤ)) =
      Finset.Icc (100 * j - 119) (100 * j - 20) := by
  ext k
  simp only [Finset.mem_filter, Finset.mem_range, Finset.mem_Icc]
  constructor
  · rintro ⟨hk, hn⟩
    rw [fine_getD k hk] at hn
    unfold MuDensity.nearestCoarse at hn
    rw [int_clamp_eq_iff _ _ _ _ (by omega) (by omega), fine_ceil_eq_iff] at hn
    omega
  · rintro ⟨hk1, hk2⟩
    have hk : k < 1001 := by omega
    refine ⟨hk, ?_⟩
    rw [fine_getD k hk]
    unfold MuDensity.nearestCoarse
    rw [int_clamp_eq_iff _ _ _ _ (by omega) (by omega), fine_ceil_eq_iff]
    omega

theorem fineMean_closed (j : ℕ) (hj2 : 2 ≤ j) (hj9 : j ≤ 9) :
    MuDensity.fineMeanAt (-23/10) (31/10) 0 (77/10) 1000 (-3) 8 (-3 + (j : ℤ)) =
      (∑ i in Finset.range 1000,
        (MuDensity.clampQ (MuDensity.interp (-23/10) (31/10) 1000 i)
            (MuDensity.interp 0 (77/10) 1000 i) (((-3 : ℚ) + j) + 101/200) -
         MuDensity.clampQ (MuDensity.interp (-23/10) (31/10) 1000 i)
            (MuDensity.interp 0 (77/10) 1000 i) (((-3 : ℚ) + j) - 99/200))) /
        ((1000 : ℕ) : ℚ) := by
  simp only [MuDensity.fineMeanAt]
  rw [fine_length, assigned_eq j hj2 hj9]
  have hstep1 : ∀ k ∈ Finset.Icc (100 * j - 119) (100 * j - 20),
      MuDensity.densAt (-23/10) (31/10) 0 (77/10) (1 / 100) 1000
        ((MuDensity.gridCoords (-23/10) (31/10) 0 (77/10) (1 / 100)).getD k 0) =
      MuDensity.densAt (-23/10) (31/10) 0 (77/10) (1 / 100) 1000
        (((-230 : ℚ) + k) * (1 / 100)) := by
    intro k hk
    rw [Finset.mem_Icc] at hk
    rw [fine_getD k (by omega)]
  rw [Finset.sum_congr rfl hstep1, Nat.card_Icc]
  rw [← Nat.Ico_succ_right, Finset.sum_Ico_eq_sum_range]
  have hcard : 100 * j - 20 + 1 - (100 * j - 119) = 100 := by omega
  rw [hcard]
  have hstep2 : ∀ m ∈ Finset.range 100,
      MuDensity.densAt (-23/10) (31/10) 0 (77/10) (1 / 100) 1000
        (((-230 : ℚ) + ((100 * j - 119 + m : ℕ) : ℚ)) * (1 / 100)) =
      MuDensity.densAt (-23/10) (31/10) 0 (77/10) (1 / 100) 1000
        ((((-3 : ℚ) + j) - 49/100) + m * (1 / 100)) := by
    intro m _
    congr 1
    rw [Nat.cast_add, Nat.cast_sub (by omega : 119 ≤ 100 * j)]
    push_cast
    ring
  rw [Finset.sum_congr rfl hstep2]
  simp only [MuDensity.densAt]
  rw [← Finset.sum_div, Finset.sum_comm]
  have hstep3 : ∀ i ∈ Finset.range 1000,
      ∑ m in Finset.range 100,
        MuDensity.coverage (MuDensity.interp (-23/10) (31/10) 1000 i)
          (MuDensity.interp 0 (77/10) 1000 i)
          ((((-3 : ℚ) + j) - 49/100) + m * (1 / 100)) (1 / 100) =
      (MuDensity.clampQ (MuDensity.interp (-23/10) (31/10) 1000 i)
          (MuDensity.interp 0 (77/10) 1000 i) (((-3 : ℚ) + j) + 101/200) -
       MuDensity.clampQ (MuDensity.interp (-23/10) (31/10) 1000 i)
          (MuDensity.interp 0 (77/10) 1000 i) (((-3 : ℚ) + j) - 99/200)) / (1 / 100) := by
    intro i _
    rw [coverage_telescope]
    rw [show (((-3 : ℚ) + j) - 49/100) + ((100 : ℕ) : ℚ) * (1 / 100) - (1 / 100) / 2 =
        ((-3 : ℚ) + j) + 101/200 from by push_cast; ring,
      show (((-3 : ℚ) + j) - 49/100) - (1 / 100) / 2 = ((-3 : ℚ) + j) - 99/200 from by
        ring]
  rw [Finset.sum_congr rfl hstep3, ← Finset.sum_div]
  push_cast
  ring

/-- C3: for the trajectory `left = (-2.3, 3.1)`, `right = (0, 7.7)` with
`time_steps = 1000`, the accumulator run at `grid_resolution = 1` and at
`grid_resolution = 0.01`, with the fine-grid densities averaged onto each coarse
cell by nearest-coordinate assignment, agree within an absolute tolerance of 0.01
on every coarse cell except the two boundary cells at each end (indices 2…9 of
the 12-cell coarse grid); the proof bounds the discrepancy by 1/200 ≤ 1/100
uniformly in the sampled leaf positions. -/
theorem C3_resolution_convergence (j : ℕ) (hj2 : 2 ≤ j) (hj9 : j ≤ 9)
    (g d : List ℚ)
    (h : MuDensity.compute [-23/10, 31/10] [0, 77/10] 1 1000 = some (g, d))
    (hd : j < d.length) :
    |MuDensity.fineMeanAt (-23/10) (31/10) 0 (77/10) 1000 (-3) 8 (-3 + (j : ℤ)) -
      d[j]| ≤ 1/100 := by
  obtain ⟨hn, hres, hg, hdm⟩ := MuDensity.compute_inv h
  subst hg
  subst hdm
  rw [List.getElem_map]
  have hjlen : j < (MuDensity.gridCoords (-23/10) (31/10) 0 (77/10) 1).length := by
    simpa using hd
  rw [gridCoords_getElem _ _ _ _ _ j hjlen]
  have hlo : ⌊min (min (-23/10 : ℚ) (31/10)) (min 0 (77/10)) / 1⌋ = -3 := by
    norm_num
  rw [hlo]
  have hx : (((-3 : ℤ) : ℚ) + j) * 1 = (-3 : ℚ) + j := by push_cast; ring
  rw [hx]
  rw [show (1000 : ℤ).toNat = 1000 from rfl]
  rw [fineMean_closed j hj2 hj9]
  simp only [MuDensity.densAt]
  refine le_trans (mean_abs_diff_le 1000 _ _ (1/200) (by norm_num) ?_) (by norm_num)
  intro i _
  have hcov : MuDensity.coverage (MuDensity.interp (-23/10) (31/10) 1000 i)
      (MuDensity.interp 0 (77/10) 1000 i) ((-3 : ℚ) + j) 1 =
      MuDensity.clampQ (MuDensity.interp (-23/10) (31/10) 1000 i)
        (MuDensity.interp 0 (77/10) 1000 i) (((-3 : ℚ) + j) + 1/2) -
      MuDensity.clampQ (MuDensity.interp (-23/10) (31/10) 1000 i)
        (MuDensity.interp 0 (77/10) 1000 i) (((-3 : ℚ) + j) - 1/2) := by
    unfold MuDensity.coverage
    rw [div_one]
  rw [hcov]
  exact clamp_window_bound _ _ _

theorem C3_resolution_convergence_witness :
    (2 : ℕ) ≤ 2 ∧ (2 : ℕ) ≤ 9 ∧
    MuDensity.compute [-23/10, 31/10] [0, 77/10] 1 1000 =
      some (MuDensity.gridCoords (-23/10) (31/10) 0 (77/10) 1,
        (MuDensity.gridCoords (-23/10) (31/10) 0 (77/10) 1).map
          (MuDensity.densAt (-23/10) (31/10) 0 (77/10) 1 (1000 : ℤ).toNat)) ∧
    ∃ hd : 2 < ((MuDensity.gridCoords (-23/10) (31/10) 0 (77/10) 1).map
        (MuDensity.densAt (-23/10) (31/10) 0 (77/10) 1 (1000 : ℤ).toNat)).length,
      |MuDensity.fineMeanAt (-23/10) (31/10) 0 (77/10) 1000 (-3) 8
          (-3 + ((2 : ℕ) : ℤ)) -
        ((MuDensity.gridCoords (-23/10) (31/10) 0 (77/10) 1).map
          (MuDensity.densAt (-23/10) (31/10) 0 (77/10) 1 (1000 : ℤ).toNat))[2]| ≤
        1/100 := by
  have hcomp : MuDensity.compute [-23/10, 31/10] [0, 77/10] 1 1000 =
      some (MuDensity.gridCoords (-23/10) (31/10) 0 (77/10) 1,
        (MuDensity.gridCoords (-23/10) (31/10) 0 (77/10) 1).map
          (MuDensity.densAt (-23/10) (31/10) 0 (77/10) 1 (1000 : ℤ).toNat)) := by
    rw [MuDensity.compute_pair, if_pos (by norm_num)]
  have hlen : ((MuDensity.gridCoords (-23/10) (31/10) 0 (77/10) 1).map
      (MuDensity.densAt (-23/10) (31/10) 0 (77/10) 1 (1000 : ℤ).toNat)).length = 12 := by
    rw [List.length_map, gridCoords_length]
    have hlo : ⌊min (min (-23/10 : ℚ) (31/10)) (min 0 (77/10)) / 1⌋ = -3 := by
      norm_num
    have hhi : ⌈max (max (-23/10 : ℚ) (31/10)) (max 0 (77/10)) / 1⌉ = 8 := by
      rw [Int.ceil_eq_iff]
      norm_num
    rw [hlo, hhi]
    rfl
  have hd : 2 < ((MuDensity.gridCoords (-23/10) (31/10) 0 (77/10) 1).map
      (MuDensity.densAt (-23/10) (31/10) 0 (77/10) 1 (1000 : ℤ).toNat)).length := by
    rw [hlen]
    norm_num
  exact ⟨le_refl 2, by norm_num, hcomp,
    ⟨hd, C3_resolution_convergence 2 (le_refl 2) (by norm_num) _ _ hcomp hd⟩⟩

theorem nearestCoarse_argmin (lo hi c : ℤ) (x : ℚ) (hc1 : lo ≤ c) (hc2 : c ≤ hi) :
    |x - (MuDensity.nearestCoarse lo hi x : ℚ)| ≤ |x - (c : ℚ)| ∧
    (c < MuDensity.nearestCoarse lo hi x →
      |x - (MuDensity.nearestCoarse lo hi x : ℚ)| < |x - (c : ℚ)|) := by
  unfold MuDensity.nearestCoarse
  set v : ℤ := ⌈x - 1 / 2⌉ with hv
  have hv1 : x - 1 / 2 ≤ (v : ℚ) := Int.le_ceil _
  have hv2 : (v : ℚ) < x + 1 / 2 := by
    have h := Int.ceil_lt_add_one (x - 1 / 2)
    rw [← hv] at h
    linarith
  rcases le_or_lt lo v with hlov | hlov
  · rcases le_or_lt v hi with hvhi | hvhi
    · rw [min_eq_right hvhi, max_eq_right hlov]
      have hxv : |x - (v : ℚ)| ≤ 1 / 2 := abs_le.mpr ⟨by linarith, by linarith⟩
      constructor
      · rcases lt_trichotomy c v with hcv | hcv | hcv
        · have hc : (c : ℚ) + 1 ≤ (v : ℚ) := by exact_mod_cast Int.add_one_le_iff.mpr hcv
          rw [abs_of_pos (by linarith : (0 : ℚ) < x - (c : ℚ))]
          linarith
        · rw [hcv]
        · have hc : (v : ℚ) + 1 ≤ (c : ℚ) := by exact_mod_cast Int.add_one_le_iff.mpr hcv
          rw [abs_of_nonpos (by linarith : x - (c : ℚ) ≤ 0)]
          linarith
      · intro hlt
        have hc : (c : ℚ) + 1 ≤ (v : ℚ) := by exact_mod_cast Int.add_one_le_iff.mpr hlt
        rw [abs_of_pos (by linarith : (0 : ℚ) < x - (c : ℚ))]
        linarith
    · rw [min_eq_left (by omega : hi ≤ v), max_eq_right (by omega : lo ≤ hi)]
      have hx : (hi : ℚ) + 1 / 2 < x := by
        have hc : (hi : ℚ) + 1 ≤ (v : ℚ) := by exact_mod_cast Int.add_one_le_iff.mpr hvhi
        linarith
      have hcx : (c : ℚ) ≤ (hi : ℚ) := by exact_mod_cast hc2
      constructor
      · rw [abs_of_pos (by linarith : (0 : ℚ) < x - (hi : ℚ)),
          abs_of_pos (by linarith : (0 : ℚ) < x - (c : ℚ))]
        linarith
      · intro hlt
        have hc : (c : ℚ) + 1 ≤ (hi : ℚ) := by exact_mod_cast Int.add_one_le_iff.mpr hlt
        rw [abs_of_pos (by linarith : (0 : ℚ) < x - (hi : ℚ)),
          abs_of_pos (by linarith : (0 : ℚ) < x - (c : ℚ))]
        linarith
  · rw [min_eq_right (by omega : v ≤ hi), max_eq_left (by omega : v ≤ lo)]
    have hx : x ≤ (lo : ℚ) - 1 / 2 := by
      have hc : (v : ℚ) + 1 ≤ (lo : ℚ) := by exact_mod_cast Int.add_one_le_iff.mpr hlov
      linarith
    have hcx : (lo : ℚ) ≤ (c : ℚ) := by exact_mod_cast hc1
    constructor
    · rw [abs_of_nonpos (by linarith : x - (lo : ℚ) ≤ 0),
        abs_of_nonpos (by linarith : x - (c : ℚ) ≤ 0)]
      linarith
    · intro hlt
      exact absurd hlt (not_lt.mpr hc1)
